import Mathlib

/-!
Shallow embedding of the polyfill-io scanner (src/main.py) and proofs of the
specification claims about it.

Python strings are modelled as `List Char`.  The Python string primitives used
by the source (`str.splitlines`, `str.lower`, `str.strip`, `str.find`, slicing,
`str.replace`) are embedded as executable Lean functions on `List Char`,
faithful on the ASCII range (Python `lower` and `strip` additionally handle
non-ASCII Unicode classes, which the source data never requires and which the
claims do not touch).

The concurrent coordinator `fetch_homepages_in_parallel` is embedded as a fold
over an arbitrary completion order of the submitted fetches: the network is
modelled by an oracle assigning each origin the outcome of its `requests.get`
call, and the scheduler nondeterminism by quantifying over every completion
order that is a permutation of the submitted origins.  `fetch_homepage_content`
catches every exception and returns a string, so the `future.result()` call in
the coordinator never raises and every completed future is recorded.
-/

namespace PolyfillScanner

/-- Characters stripped by Python `str.strip` (the ASCII whitespace range). -/
def isPySpace (c : Char) : Bool :=
  c = ' ' || c = '\t' || c = '\n' || c = '\r' || c = '\x0b' || c = '\x0c'

/-- Line boundary characters recognised by Python `str.splitlines`. -/
def isLineBreak (c : Char) : Bool :=
  c = '\n' || c = '\r' || c = '\x0b' || c = '\x0c' ||
  c = '\x1c' || c = '\x1d' || c = '\x1e' || c = '\u0085' ||
  c = '\u2028' || c = '\u2029'

/-- Worker for `pySplitlines`: `acc` holds the reversed current line.
Mirrors Python `str.splitlines`: a trailing line terminator does not produce a
final empty line, and `"\r\n"` counts as a single boundary. -/
def pySplitlinesAux (acc : List Char) : List Char → List (List Char)
  | [] => if acc.isEmpty then [] else [acc.reverse]
  | '\r' :: '\n' :: rest => acc.reverse :: pySplitlinesAux [] rest
  | c :: rest =>
    if isLineBreak c then acc.reverse :: pySplitlinesAux [] rest
    else pySplitlinesAux (c :: acc) rest

/-- Python `text.splitlines()`. -/
def pySplitlines (text : List Char) : List (List Char) :=
  pySplitlinesAux [] text

/-- Python `line.lower()` (ASCII range, via `Char.toLower`). -/
def pyLower (l : List Char) : List Char :=
  l.map Char.toLower

/-- Python `line.strip()`: remove leading and trailing whitespace. -/
def pyStrip (l : List Char) : List Char :=
  ((l.dropWhile isPySpace).reverse.dropWhile isPySpace).reverse

/-- Python `line.find(keyword)`: index of the first occurrence of `needle` in
`hay`, or `none` where Python returns `-1`. -/
def findSub (needle : List Char) : List Char → Option Nat
  | [] => if needle.isEmpty then some 0 else none
  | c :: rest =>
    if needle.isPrefixOf (c :: rest) then some 0
    else (findSub needle rest).map (fun n => n + 1)

/-- Python `line[max(0, keyword_index - 50) : keyword_index + 50]` from
src/main.py line 160.  Nat subtraction realises the `max(0, _)` clamp and
`List.take` the clamp at the end of the line. -/
def lineContext (nline : List Char) (idx : Nat) : List Char :=
  (nline.drop (idx - 50)).take (idx + 50 - (idx - 50))

/-- Loop body of `find_keyword_context` (src/main.py lines 154-161): walk the
lines with their indices, normalise each line by `lower` then `strip`, and on
the first line containing the keyword return the formatted context string. -/
def scanLines (keyword : List Char) : Nat → List (List Char) → Option (List Char)
  | _, [] => none
  | i, line :: rest =>
    match findSub keyword (pyStrip (pyLower line)) with
    | none => scanLines keyword (i + 1) rest
    | some idx =>
      some (Nat.toDigits 10 i ++ ':' :: ' ' :: lineContext (pyStrip (pyLower line)) idx)

/-- Embedding of `find_keyword_context(text, keyword)` (src/main.py 153-163). -/
def find_keyword_context (text keyword : List Char) : Option (List Char) :=
  scanLines keyword 0 (pySplitlines text)

/-- Outcome of the single `requests.get(url, timeout=timeout)` call inside
`fetch_homepage_content`: either a decoded HTTP response (any status code) or
an exception (timeout, connection error, DNS failure, decode failure, ...)
carrying its message. -/
inductive RequestsOutcome where
  | response (status : Nat) (body : List Char)
  | raisesExn (msg : List Char)
deriving DecidableEq

/-- Embedding of `fetch_homepage_content(url, timeout)` (src/main.py 141-150):
the value returned to the caller.  The `try/except Exception` converts every
failure into the empty string; on success `response.text` is returned with no
status-code filtering.  Totality of this function is the embedding of the fact
that no error propagates past the fetcher boundary. -/
def fetch_homepage_content (url : List Char) (outcome : RequestsOutcome) : List Char :=
  match outcome with
  | .response _ body => body
  | .raisesExn _ => []

/-- Diagnostic log lines emitted by one call of `fetch_homepage_content`
(src/main.py line 149): on failure, one `logging.error` entry naming the origin
and the error; on success, nothing. -/
def fetch_homepage_logs (url : List Char) (outcome : RequestsOutcome) : List (List Char) :=
  match outcome with
  | .response _ _ => []
  | .raisesExn e =>
    [("Failed to fetch the homepage of ".data ++ url ++ ". Error: ".data ++ e)]

/-- Embedding of `fetch_homepages_in_parallel` (src/main.py 112-138).  The
`homepage_content` column of the dataframe is the resulting map from origin to
optional recorded content (`none` = never assigned).  `outcome` is the network
oracle giving each origin the outcome of its `requests.get`; `completionOrder`
is the order in which `as_completed` yields the submitted futures — the
theorems quantify over every permutation of the submitted origins.  Each
completed future stores `fetch_homepage_content` for its url into every row
whose origin equals that url, which on the origin-keyed map is one update. -/
def fetch_homepages_in_parallel (outcome : List Char → RequestsOutcome)
    (completionOrder : List (List Char)) : List Char → Option (List Char) :=
  completionOrder.foldl
    (fun results url o =>
      if o = url then some (fetch_homepage_content url (outcome url)) else results o)
    (fun _ => none)

/-- Python `s.replace(old, new)` for a nonempty `old`: replace all
non-overlapping occurrences left to right.  (src/main.py line 70 calls it with
`old = "."`.) -/
def pyReplace (s old new : List Char) : List Char :=
  match s with
  | [] => []
  | c :: rest =>
    if old ≠ [] ∧ old.isPrefixOf (c :: rest) then
      new ++ pyReplace ((c :: rest).drop old.length) old new
    else c :: pyReplace rest old new
termination_by s.length
decreasing_by
  · simp only [List.length_drop]
    rename_i h
    have hlen : 0 < old.length := List.length_pos.mpr h.1
    simp only [List.length_cons]
    omega
  · simp only [List.length_cons]
    omega

/-- Embedding of `keyword_as_filename = KEYWORD.replace(".", "_")`
(src/main.py line 70). -/
def keyword_as_filename (keyword : List Char) : List Char :=
  pyReplace keyword ['.'] ['_']

/-- Fields of a Python `datetime.datetime` value relevant to the run. -/
structure PyDateTime where
  year : Nat
  month : Nat
  day : Nat
  hour : Nat
  minute : Nat
  second : Nat
  microsecond : Nat
deriving DecidableEq

/-- Zero-padded two-digit decimal field, as `strftime` prints `%m %d %H %M`. -/
def pad2 (n : Nat) : List Char :=
  if n < 10 then '0' :: Nat.toDigits 10 n else Nat.toDigits 10 n

/-- Zero-padded four-digit decimal field, as `strftime` prints `%Y`. -/
def pad4 (n : Nat) : List Char :=
  if n < 10 then '0' :: '0' :: '0' :: Nat.toDigits 10 n
  else if n < 100 then '0' :: '0' :: Nat.toDigits 10 n
  else if n < 1000 then '0' :: Nat.toDigits 10 n
  else Nat.toDigits 10 n

/-- Embedding of `datetime.datetime.now().strftime("%Y-%m-%d-%H-%M")`
(src/main.py line 69): the format string reads the timestamp down to the
minute and nothing finer. -/
def strftimeMinute (t : PyDateTime) : List Char :=
  pad4 t.year ++ '-' :: pad2 t.month ++ '-' :: pad2 t.day ++
    '-' :: pad2 t.hour ++ '-' :: pad2 t.minute

/-- Embedding of `filename = f"sites_with_{keyword_as_filename}_{timestamp}.csv"`
(src/main.py lines 69-71). -/
def csvFilename (keyword : List Char) (t : PyDateTime) : List Char :=
  "sites_with_".data ++ keyword_as_filename keyword ++ '_' :: strftimeMinute t
    ++ ".csv".data

/-! ### Lemmas about the embedded string primitives -/

theorem isPrefixOf_iff_append :
    ∀ (a l : List Char), a.isPrefixOf l = true ↔ ∃ t, l = a ++ t
  | [], l => by simp [List.isPrefixOf]
  | c :: a2, [] => by simp [List.isPrefixOf]
  | c :: a2, d :: l2 => by
    simp only [List.isPrefixOf, Bool.and_eq_true, beq_iff_eq,
      isPrefixOf_iff_append a2 l2, List.cons_append, List.cons.injEq]
    constructor
    · rintro ⟨rfl, t, rfl⟩
      exact ⟨t, rfl, rfl⟩
    · rintro ⟨t, rfl, rfl⟩
      exact ⟨rfl, t, rfl⟩

theorem findSub_isSome_iff (needle : List Char) :
    ∀ hay : List Char,
      (findSub needle hay).isSome = true ↔ ∃ pre post, hay = pre ++ needle ++ post := by
  intro hay
  induction hay with
  | nil =>
    by_cases h : needle = []
    · subst h
      simp only [findSub, List.isEmpty_nil, if_true, Option.isSome_some, true_iff]
      exact ⟨[], [], rfl⟩
    · have hne : needle.isEmpty = false := by
        simpa [List.isEmpty_iff] using h
      simp only [findSub, hne, Bool.false_eq_true, if_false, Option.isSome_none,
        false_iff, not_exists]
      intro pre post hcon
      rcases List.append_eq_nil.mp hcon.symm with ⟨h1, -⟩
      rcases List.append_eq_nil.mp h1 with ⟨-, h3⟩
      exact h h3
  | cons c rest ih =>
    simp only [findSub]
    by_cases hp : needle.isPrefixOf (c :: rest) = true
    · rw [if_pos hp]
      simp only [Option.isSome_some, true_iff]
      obtain ⟨t, ht⟩ := (isPrefixOf_iff_append needle (c :: rest)).mp hp
      exact ⟨[], t, by simp [ht]⟩
    · rw [if_neg hp]
      have hmap : ((findSub needle rest).map (fun n => n + 1)).isSome
          = (findSub needle rest).isSome := by
        cases findSub needle rest <;> rfl
      rw [hmap, ih]
      constructor
      · rintro ⟨pre, post, rfl⟩
        exact ⟨c :: pre, post, rfl⟩
      · rintro ⟨pre, post, hs⟩
        cases pre with
        | nil =>
          exact absurd ((isPrefixOf_iff_append needle (c :: rest)).mpr
            ⟨post, by simpa using hs⟩) hp
        | cons c2 pre2 =>
          simp only [List.cons_append, List.cons.injEq] at hs
          exact ⟨pre2, post, hs.2⟩

theorem findSub_some_drop (needle : List Char) :
    ∀ (hay : List Char) (idx : Nat),
      findSub needle hay = some idx → ∃ post, hay.drop idx = needle ++ post := by
  intro hay
  induction hay with
  | nil =>
    intro idx h
    simp only [findSub] at h
    by_cases he : needle.isEmpty = true
    · rw [if_pos he] at h
      injection h with h0
      subst h0
      rw [List.isEmpty_iff] at he
      subst he
      exact ⟨[], rfl⟩
    · rw [if_neg he] at h
      simp at h
  | cons c rest ih =>
    intro idx h
    simp only [findSub] at h
    by_cases hp : needle.isPrefixOf (c :: rest) = true
    · rw [if_pos hp] at h
      injection h with h0
      subst h0
      obtain ⟨t, ht⟩ := (isPrefixOf_iff_append needle (c :: rest)).mp hp
      exact ⟨t, by simpa using ht⟩
    · rw [if_neg hp] at h
      rcases hfs : findSub needle rest with - | n
      · rw [hfs] at h
        simp at h
      · rw [hfs] at h
        have h2 : n + 1 = idx := by simpa using h
        subst h2
        rw [List.drop_succ_cons]
        exact ih n hfs

theorem findSub_nil_needle (hay : List Char) : findSub [] hay = some 0 := by
  cases hay <;> simp [findSub, List.isPrefixOf]

theorem lineContext_length_le (nline : List Char) (idx : Nat) :
    (lineContext nline idx).length ≤ 100 := by
  simp only [lineContext, List.length_take, List.length_drop]
  omega

theorem lineContext_eq_take_drop (nline : List Char) (idx : Nat) :
    lineContext nline idx = (nline.take (idx + 50)).drop (idx - 50) :=
  (List.drop_take (idx + 50) (idx - 50) nline).symm

theorem toLower_isUpper_eq_false (c : Char) : (Char.toLower c).isUpper = false := by
  simp only [Char.toLower, Char.isUpper]
  split
  · rename_i h
    simp only [Char.toNat] at h
    obtain ⟨h1, h2⟩ := h
    have hvalid : Nat.isValidChar (c.val.toNat + 32) := Or.inl (by omega)
    have hval : (Char.ofNat (c.val.toNat + 32)).val.toNat = c.val.toNat + 32 := by
      simp only [Char.ofNat, Char.ofNatAux]
      split
      · rfl
      · rename_i hcon
        exact absurd hvalid hcon
    simp only [Bool.and_eq_false_iff]
    right
    simp only [decide_eq_false_iff_not]
    intro hle
    have h90 : (Char.ofNat (c.val.toNat + 32)).val.toNat ≤ 90 := hle
    omega
  · rename_i h
    simp only [Char.toNat] at h
    simp only [Bool.and_eq_false_iff]
    by_cases h65 : c.val ≥ 65
    · right
      simp only [decide_eq_false_iff_not]
      intro h90
      apply h
      have a1 : 65 ≤ c.val.toNat := h65
      have a2 : c.val.toNat ≤ 90 := h90
      omega
    · left
      simp only [decide_eq_false_iff_not]
      exact h65

theorem mem_pyStrip {c : Char} {l : List Char} (h : c ∈ pyStrip l) : c ∈ l := by
  simp only [pyStrip, List.mem_reverse] at h
  have h2 := (List.dropWhile_sublist isPySpace).subset h
  rw [List.mem_reverse] at h2
  exact (List.dropWhile_sublist isPySpace).subset h2

theorem mem_lineContext {c : Char} {nline : List Char} {idx : Nat}
    (h : c ∈ lineContext nline idx) : c ∈ nline := by
  simp only [lineContext] at h
  exact (List.drop_sublist _ _).subset ((List.take_sublist _ _).subset h)

theorem no_upper_in_context (line : List Char) (idx : Nat) :
    ∀ c ∈ lineContext (pyStrip (pyLower line)) idx, c.isUpper = false := by
  intro c hc
  have h1 : c ∈ pyLower line := mem_pyStrip (mem_lineContext hc)
  simp only [pyLower, List.mem_map] at h1
  obtain ⟨d, -, rfl⟩ := h1
  exact toLower_isUpper_eq_false d

theorem pyStrip_eq_rdropWhile (l : List Char) :
    pyStrip l = List.rdropWhile isPySpace (l.dropWhile isPySpace) := by
  simp [pyStrip, List.rdropWhile]

theorem pyStrip_idem (l : List Char) : pyStrip (pyStrip l) = pyStrip l := by
  rw [pyStrip_eq_rdropWhile, pyStrip_eq_rdropWhile]
  set y := l.dropWhile isPySpace with hy
  have hyy : y.dropWhile isPySpace = y := by
    rw [hy]
    exact List.dropWhile_idempotent isPySpace l
  have hdrop : (List.rdropWhile isPySpace y).dropWhile isPySpace
      = List.rdropWhile isPySpace y := by
    rcases hz : List.rdropWhile isPySpace y with - | ⟨a, z⟩
    · rfl
    · have hpre2 : List.rdropWhile isPySpace y <+: y := List.rdropWhile_prefix isPySpace y
      obtain ⟨t, ht⟩ := hpre2
      rw [hz] at ht
      have hya : isPySpace a = false := by
        by_cases ha : isPySpace a = true
        · exfalso
          have hcons : y = a :: (z ++ t) := by
            rw [← ht]
            simp
          have hself := hyy
          rw [hcons, List.dropWhile_cons, if_pos ha] at hself
          have hlen := congrArg List.length hself
          have hle : (List.dropWhile isPySpace (z ++ t)).length ≤ (z ++ t).length :=
            (List.dropWhile_sublist isPySpace).length_le
          simp only [List.length_cons] at hlen
          omega
        · simpa using ha
      simp [List.dropWhile_cons, hya]
  rw [hdrop, List.rdropWhile_idempotent]

/-! ### Lemmas about the scanner loop -/

theorem scanLines_nil (keyword : List Char) (i : Nat) : scanLines keyword i [] = none :=
  rfl

theorem scanLines_cons (keyword line : List Char) (rest : List (List Char)) (i : Nat) :
    scanLines keyword i (line :: rest)
      = match findSub keyword (pyStrip (pyLower line)) with
        | none => scanLines keyword (i + 1) rest
        | some idx =>
          some (Nat.toDigits 10 i ++ ':' :: ' ' ::
            lineContext (pyStrip (pyLower line)) idx) :=
  rfl

theorem scanLines_eq_some_spec (keyword : List Char) :
    ∀ (ls : List (List Char)) (i : Nat) (s : List Char),
      scanLines keyword i ls = some s →
      ∃ j line idx, ls[j]? = some line ∧
        (∀ k line2, k < j → ls[k]? = some line2 →
          findSub keyword (pyStrip (pyLower line2)) = none) ∧
        findSub keyword (pyStrip (pyLower line)) = some idx ∧
        s = Nat.toDigits 10 (i + j) ++ ':' :: ' ' ::
          lineContext (pyStrip (pyLower line)) idx := by
  intro ls
  induction ls with
  | nil =>
    intro i s h
    simp [scanLines] at h
  | cons line rest ih =>
    intro i s h
    rw [scanLines_cons] at h
    rcases hfs : findSub keyword (pyStrip (pyLower line)) with - | idx
    · rw [hfs] at h
      obtain ⟨j, line2, idx, hget, hmin, hf, hs⟩ := ih (i + 1) s h
      refine ⟨j + 1, line2, idx, by simpa using hget, ?_, hf, ?_⟩
      · intro k lk hk hgetk
        cases k with
        | zero =>
          simp only [List.getElem?_cons_zero] at hgetk
          injection hgetk with hlk
          subst hlk
          exact hfs
        | succ k2 =>
          exact hmin k2 lk (by omega) (by simpa using hgetk)
      · rw [hs]
        have harith : i + 1 + j = i + (j + 1) := by omega
        rw [harith]
    · rw [hfs] at h
      injection h with hs
      refine ⟨0, line, idx, by simp, ?_, hfs, by simp [hs.symm]⟩
      intro k lk hk
      exact absurd hk (by omega)

theorem scanLines_eq_none_iff (keyword : List Char) :
    ∀ (ls : List (List Char)) (i : Nat),
      scanLines keyword i ls = none
        ↔ ∀ line ∈ ls, findSub keyword (pyStrip (pyLower line)) = none := by
  intro ls
  induction ls with
  | nil =>
    intro i
    simp [scanLines]
  | cons line rest ih =>
    intro i
    rw [scanLines_cons]
    rcases hfs : findSub keyword (pyStrip (pyLower line)) with - | idx
    · constructor
      · intro h lk hlk
        rcases List.mem_cons.mp hlk with rfl | hlk2
        · exact hfs
        · exact ((ih (i + 1)).mp h) lk hlk2
      · intro h
        exact (ih (i + 1)).mpr (fun lk hlk => h lk (List.mem_cons_of_mem line hlk))
    · constructor
      · intro h
        exact absurd h (by simp)
      · intro h
        have := h line (List.mem_cons_self line rest)
        rw [hfs] at this
        exact absurd this (by simp)

theorem scanLines_first (keyword : List Char) :
    ∀ (ls : List (List Char)) (i j : Nat) (line : List Char) (idx : Nat),
      ls[j]? = some line →
      findSub keyword (pyStrip (pyLower line)) = some idx →
      (∀ k line2, k < j → ls[k]? = some line2 →
        findSub keyword (pyStrip (pyLower line2)) = none) →
      scanLines keyword i ls
        = some (Nat.toDigits 10 (i + j) ++ ':' :: ' ' ::
            lineContext (pyStrip (pyLower line)) idx) := by
  intro ls
  induction ls with
  | nil =>
    intro i j line idx hget
    simp at hget
  | cons l rest ih =>
    intro i j line idx hget hf hmin
    cases j with
    | zero =>
      simp only [List.getElem?_cons_zero] at hget
      injection hget with hl
      subst hl
      rw [scanLines_cons, hf]
      simp
    | succ j2 =>
      have h0 : findSub keyword (pyStrip (pyLower l)) = none :=
        hmin 0 l (Nat.succ_pos j2) (by simp)
      rw [scanLines_cons, h0]
      have harith : i + (j2 + 1) = i + 1 + j2 := by omega
      rw [harith]
      exact ih (i + 1) j2 line idx (by simpa using hget) hf
        (fun k lk hk hgetk => hmin (k + 1) lk (by omega) (by simpa using hgetk))

/-! ### Lemmas about the coordinator fold -/

theorem fetch_record_lookup (outcome : List Char → RequestsOutcome) :
    ∀ (order : List (List Char)) (init : List Char → Option (List Char)) (o : List Char),
      order.foldl (fun results url q =>
          if q = url then some (fetch_homepage_content url (outcome url)) else results q)
        init o
      = if o ∈ order then some (fetch_homepage_content o (outcome o)) else init o := by
  intro order
  induction order with
  | nil =>
    intro init o
    simp
  | cons url rest ih =>
    intro init o
    rw [List.foldl_cons, ih]
    by_cases ho : o ∈ rest
    · simp [ho, List.mem_cons]
    · by_cases he : o = url
      · subst he
        simp [ho, List.mem_cons]
      · simp [ho, he, List.mem_cons]

/-! ### Splitlines produces a line for every nonempty text -/

set_option maxHeartbeats 4000000 in
theorem pySplitlinesAux_ne_nil (cs : List Char) (acc : List Char) (hacc : acc ≠ []) :
    pySplitlinesAux acc cs ≠ [] := by
  rcases cs with - | ⟨c, rest⟩
  · rw [pySplitlinesAux.eq_1]
    simp [List.isEmpty_iff, hacc]
  · by_cases hrn : c = '\r' ∧ ∃ rest2, rest = '\n' :: rest2
    · obtain ⟨rfl, rest2, rfl⟩ := hrn
      rw [pySplitlinesAux.eq_2]
      simp
    · rw [pySplitlinesAux.eq_3 acc c rest
        (fun rest2 hc hr => hrn ⟨hc, rest2, hr⟩)]
      split
      · simp
      · exact pySplitlinesAux_ne_nil rest (c :: acc) (by simp)
termination_by cs.length
decreasing_by
  simp only [List.length_cons]
  omega

theorem pySplitlines_ne_nil (text : List Char) (h : text ≠ []) : pySplitlines text ≠ [] := by
  rcases text with - | ⟨c, rest⟩
  · exact absurd rfl h
  · rw [pySplitlines]
    by_cases hrn : c = '\r' ∧ ∃ rest2, rest = '\n' :: rest2
    · obtain ⟨rfl, rest2, rfl⟩ := hrn
      rw [pySplitlinesAux.eq_2]
      simp
    · rw [pySplitlinesAux.eq_3 [] c rest
        (fun rest2 hc hr => hrn ⟨hc, rest2, hr⟩)]
      split
      · simp
      · exact pySplitlinesAux_ne_nil rest [c] (by simp)

/-! ### Replace with a single-character pattern is a character map -/

theorem pyReplace_single (oldc newc : Char) :
    ∀ s : List Char,
      pyReplace s [oldc] [newc] = s.map (fun c => if c = oldc then newc else c) := by
  intro s
  induction s with
  | nil =>
    simp [pyReplace]
  | cons c rest ih =>
    by_cases h : c = oldc
    · subst h
      have hcond : ([c] : List Char) ≠ [] ∧ ([c]).isPrefixOf (c :: rest) = true :=
        ⟨by simp, by simp [List.isPrefixOf]⟩
      simp only [pyReplace, if_pos hcond]
      simp [ih]
    · have hcond : ¬(([oldc] : List Char) ≠ [] ∧ ([oldc]).isPrefixOf (c :: rest) = true) := by
        intro hcon
        have h2 := hcon.2
        simp only [List.isPrefixOf, List.isPrefixOf_nil_left, Bool.and_true,
          beq_iff_eq] at h2
        exact h h2.symm
      simp only [pyReplace, if_neg hcond]
      simp [ih, h]

/-! ## Claim theorems -/

/-- Claim C1: for every input sequence of origins of any size N ≥ 0, any
network behaviour (hence regardless of how many individual fetches fail) and
any completion order of the submitted futures (any permutation of the input
origins), `fetch_homepages_in_parallel` finishes with exactly one recorded
fetch result for every input origin — the value of that origin's
`fetch_homepage_content` call — and with no entry for any origin that was not
submitted; in particular for zero origins the result set is empty. -/
theorem C1_fetch_all_complete (outcome : List Char → RequestsOutcome)
    (origins order : List (List Char)) (hperm : order.Perm origins) :
    (∀ o ∈ origins,
      fetch_homepages_in_parallel outcome order o
        = some (fetch_homepage_content o (outcome o))) ∧
    (∀ o ∉ origins, fetch_homepages_in_parallel outcome order o = none) ∧
    (origins = [] → ∀ o, fetch_homepages_in_parallel outcome order o = none) := by
  have hlook : ∀ o, fetch_homepages_in_parallel outcome order o
      = if o ∈ order then some (fetch_homepage_content o (outcome o)) else none :=
    fun o => fetch_record_lookup outcome order (fun _ => none) o
  refine ⟨?_, ?_, ?_⟩
  · intro o ho
    rw [hlook o, if_pos (hperm.mem_iff.mpr ho)]
  · intro o ho
    rw [hlook o, if_neg (fun hc => ho (hperm.mem_iff.mp hc))]
  · intro h0 o
    subst h0
    rw [hlook o, if_neg (fun hc => (List.not_mem_nil o) (hperm.mem_iff.mp hc))]

/-- Witness for C1 at a concrete batch: two origins whose fetches both fail,
completing in reversed order; each submitted origin holds a recorded (empty)
result and a never-submitted origin holds none. -/
theorem C1_fetch_all_complete_witness :
    fetch_homepages_in_parallel (fun _ => RequestsOutcome.raisesExn ("timeout".data))
        ["https://b.example".data, "https://a.example".data] ("https://a.example".data)
      = some [] ∧
    fetch_homepages_in_parallel (fun _ => RequestsOutcome.raisesExn ("timeout".data))
        ["https://b.example".data, "https://a.example".data] ("https://c.example".data)
      = none := by
  have h := C1_fetch_all_complete (fun _ => RequestsOutcome.raisesExn ("timeout".data))
    ["https://a.example".data, "https://b.example".data]
    ["https://b.example".data, "https://a.example".data] (by decide)
  constructor
  · have h1 := h.1 ("https://a.example".data) (by decide)
    rw [h1]
    rfl
  · exact h.2.1 ("https://c.example".data) (by decide)

/-- Claim C2: isolation hyperproperty — the recorded results for origins other
than X do not depend on X's fetch outcome.  Two coordinator runs over the same
batch whose network oracles agree outside X (for instance one in which X
always fails and one in which X succeeds), each under an arbitrary completion
order, record identical results for every origin Y ≠ X. -/
theorem C2_fetch_isolation (outcome1 outcome2 : List Char → RequestsOutcome)
    (origins order1 order2 : List (List Char)) (X : List Char)
    (h1 : order1.Perm origins) (h2 : order2.Perm origins)
    (hagree : ∀ Y, Y ≠ X → outcome1 Y = outcome2 Y) :
    ∀ Y, Y ≠ X →
      fetch_homepages_in_parallel outcome1 order1 Y
        = fetch_homepages_in_parallel outcome2 order2 Y := by
  intro Y hY
  have l1 : fetch_homepages_in_parallel outcome1 order1 Y
      = if Y ∈ order1 then some (fetch_homepage_content Y (outcome1 Y)) else none :=
    fetch_record_lookup outcome1 order1 (fun _ => none) Y
  have l2 : fetch_homepages_in_parallel outcome2 order2 Y
      = if Y ∈ order2 then some (fetch_homepage_content Y (outcome2 Y)) else none :=
    fetch_record_lookup outcome2 order2 (fun _ => none) Y
  rw [l1, l2, hagree Y hY]
  by_cases hmem : Y ∈ origins
  · rw [if_pos (h1.mem_iff.mpr hmem), if_pos (h2.mem_iff.mpr hmem)]
  · rw [if_neg (fun hc => hmem (h1.mem_iff.mp hc)),
      if_neg (fun hc => hmem (h2.mem_iff.mp hc))]

/-- Witness for C2: origin x always times out in the first run and succeeds in
the second, under different completion orders; origin y records the same
result in both runs. -/
theorem C2_fetch_isolation_witness :
    fetch_homepages_in_parallel
        (fun u => if u = "https://x.example".data
          then RequestsOutcome.raisesExn ("timeout".data)
          else RequestsOutcome.response 200 ("hello".data))
        ["https://x.example".data, "https://y.example".data]
        ("https://y.example".data)
      = fetch_homepages_in_parallel
          (fun _ => RequestsOutcome.response 200 ("hello".data))
          ["https://y.example".data, "https://x.example".data]
          ("https://y.example".data) :=
  C2_fetch_isolation
    (fun u => if u = "https://x.example".data
      then RequestsOutcome.raisesExn ("timeout".data)
      else RequestsOutcome.response 200 ("hello".data))
    (fun _ => RequestsOutcome.response 200 ("hello".data))
    ["https://x.example".data, "https://y.example".data]
    ["https://x.example".data, "https://y.example".data]
    ["https://y.example".data, "https://x.example".data]
    ("https://x.example".data)
    (by decide) (by decide)
    (fun Y hY => by simp [hY])
    ("https://y.example".data) (by decide)

/-- Counterexample to claim C3 as stated: the value returned by
`fetch_homepage_content` for a failed fetch is identical to the value returned
for a successful fetch of an empty page, so the return carries no failure
indicator — failure is signalled only through the log side channel, and the
claimed "empty text result together with a failure indicator" does not hold of
the returned value. -/
theorem C3_counterexample :
    fetch_homepage_content ("https://a.example".data)
        (RequestsOutcome.raisesExn ("Connection timed out".data))
      = fetch_homepage_content ("https://a.example".data)
        (RequestsOutcome.response 200 []) ∧
    fetch_homepage_content ("https://a.example".data)
        (RequestsOutcome.raisesExn ("Connection timed out".data)) = [] :=
  ⟨rfl, rfl⟩

/-- Claim C3, amended: `fetch_homepage_content` never propagates an error past
its boundary (in this embedding it is a total function of the request
outcome); on any failure it returns the empty text and emits exactly one
diagnostic log entry naming the origin and the error — the returned value
itself carries no failure indicator, an empty failed fetch and an empty
successful fetch return the same value — and on success it returns the decoded
response body for every HTTP status code, with no log entry. -/
theorem C3_fetcher_contract (url err body : List Char) (status : Nat) :
    fetch_homepage_content url (RequestsOutcome.raisesExn err) = [] ∧
    fetch_homepage_logs url (RequestsOutcome.raisesExn err)
      = [("Failed to fetch the homepage of ".data ++ url ++ ". Error: ".data ++ err)] ∧
    fetch_homepage_content url (RequestsOutcome.response status body) = body ∧
    fetch_homepage_logs url (RequestsOutcome.response status body) = [] :=
  ⟨rfl, rfl, rfl, rfl⟩

set_option maxRecDepth 10000 in
/-- Counterexample to claim C4 as stated: the claim requires the match to
succeed whichever of the text or the keyword carries the uppercase letters,
but an uppercase keyword never matches — only the line is lowercased, the
keyword is searched for verbatim — while the same pair with the uppercase
letters in the text does match. -/
theorem C4_counterexample :
    find_keyword_context ("foobar.com says hi".data) ("FooBar.COM".data) = none ∧
    (find_keyword_context ("FooBar.COM says hi".data) ("foobar.com".data)).isSome
      = true := by
  constructor
  · decide
  · decide

/-- Claim C4, amended: `find_keyword_context` reports a match exactly when
some line of the text, after lowercasing and stripping, contains the keyword
verbatim as a substring.  The search is therefore case-insensitive with
respect to the page text (text containing "FooBar.COM" matches keyword
"foobar.com") but not with respect to the keyword, which is compared as
given. -/
theorem C4_match_characterisation (text keyword : List Char) :
    (find_keyword_context text keyword).isSome = true
      ↔ ∃ line ∈ pySplitlines text, ∃ pre post,
          pyStrip (pyLower line) = pre ++ keyword ++ post := by
  rw [find_keyword_context]
  constructor
  · intro h
    by_contra hcon
    push_neg at hcon
    have hnone : scanLines keyword 0 (pySplitlines text) = none := by
      rw [scanLines_eq_none_iff]
      intro line hline
      rcases hfs : findSub keyword (pyStrip (pyLower line)) with - | idx
      · rfl
      · exfalso
        have hsome : (findSub keyword (pyStrip (pyLower line))).isSome = true := by
          rw [hfs]
          rfl
        obtain ⟨pre, post, hdecomp⟩ := (findSub_isSome_iff keyword _).mp hsome
        exact hcon line hline pre post hdecomp
    rw [hnone] at h
    exact absurd h (by simp)
  · rintro ⟨line, hline, pre, post, hdecomp⟩
    rcases hs : scanLines keyword 0 (pySplitlines text) with - | s
    · exfalso
      have hn := (scanLines_eq_none_iff keyword (pySplitlines text) 0).mp hs line hline
      have hsome : (findSub keyword (pyStrip (pyLower line))).isSome = true :=
        (findSub_isSome_iff keyword _).mpr ⟨pre, post, hdecomp⟩
      rw [hn] at hsome
      exact absurd hsome (by simp)
    · rfl

/-- Claim C5: whenever `find_keyword_context` reports a match, the returned
string consists of the matching line index followed by a context that is the
substring of the normalised matching line spanning from 50 characters before
the match start (clamped to the line start, by the truncated subtraction
`idx - 50`) to 50 characters after the match start (clamped to the line end,
by `take`) — hence a string of at most 100 characters. -/
theorem C5_context_window (text keyword s : List Char)
    (h : find_keyword_context text keyword = some s) :
    ∃ i line idx, (pySplitlines text)[i]? = some line ∧
      findSub keyword (pyStrip (pyLower line)) = some idx ∧
      s = Nat.toDigits 10 i ++ ':' :: ' ' ::
        ((pyStrip (pyLower line)).take (idx + 50)).drop (idx - 50) ∧
      (((pyStrip (pyLower line)).take (idx + 50)).drop (idx - 50)).length ≤ 100 := by
  rw [find_keyword_context] at h
  obtain ⟨j, line, idx, hget, -, hf, hs⟩ := scanLines_eq_some_spec keyword _ 0 s h
  refine ⟨j, line, idx, hget, hf, ?_, ?_⟩
  · rw [hs, ← lineContext_eq_take_drop]
    simp
  · rw [← lineContext_eq_take_drop]
    exact lineContext_length_le _ _

set_option maxRecDepth 10000 in
/-- Witness for C5 at a concrete match: the end-to-end example text with
keyword "keyword-x" matches on line 0 at offset 6 and the whole line is the
window. -/
theorem C5_context_window_witness :
    ∃ i line idx,
      (pySplitlines ("hello keyword-x world".data))[i]? = some line ∧
      findSub ("keyword-x".data) (pyStrip (pyLower line)) = some idx ∧
      "0: hello keyword-x world".data = Nat.toDigits 10 i ++ ':' :: ' ' ::
        ((pyStrip (pyLower line)).take (idx + 50)).drop (idx - 50) ∧
      (((pyStrip (pyLower line)).take (idx + 50)).drop (idx - 50)).length ≤ 100 :=
  C5_context_window ("hello keyword-x world".data) ("keyword-x".data)
    ("0: hello keyword-x world".data) (by decide)

set_option maxRecDepth 40000 in
/-- Claim C6: for the single-line text x*200 ++ "keyword" ++ y*200 and keyword
"keyword", the returned context is exactly 50 characters of x, the 7-character
keyword, and 43 characters of y: 100 characters in total, which is at most 107
(50 + 7 + 50), and the window is centred on the match start — exactly 50
characters precede it and 50 characters (keyword included) follow from it. -/
theorem C6_context_window_concrete :
    find_keyword_context
        (List.replicate 200 'x' ++ "keyword".data ++ List.replicate 200 'y')
        ("keyword".data)
      = some ("0: ".data ++ List.replicate 50 'x' ++ "keyword".data
          ++ List.replicate 43 'y') ∧
    (List.replicate 50 'x' ++ "keyword".data ++ List.replicate 43 'y').length = 100 ∧
    (List.replicate 50 'x' ++ "keyword".data ++ List.replicate 43 'y').length ≤ 107 ∧
    (List.replicate 50 'x').length = 50 ∧
    ("keyword".data ++ List.replicate 43 'y').length = 50 := by
  refine ⟨by decide, by decide, by decide, by decide, by decide⟩

/-- Claim C7: scanning walks the newline-delimited lines in order with
zero-based indices and returns on the first matching line only, ignoring every
later occurrence; when no line matches the result is `none` (absence), not an
empty string. -/
theorem C7_first_match_only (text keyword : List Char) :
    ((∀ line ∈ pySplitlines text,
        findSub keyword (pyStrip (pyLower line)) = none) →
      find_keyword_context text keyword = none) ∧
    (∀ j line idx, (pySplitlines text)[j]? = some line →
      findSub keyword (pyStrip (pyLower line)) = some idx →
      (∀ k line2, k < j → (pySplitlines text)[k]? = some line2 →
        findSub keyword (pyStrip (pyLower line2)) = none) →
      find_keyword_context text keyword
        = some (Nat.toDigits 10 j ++ ':' :: ' ' ::
            lineContext (pyStrip (pyLower line)) idx)) := by
  constructor
  · intro h
    rw [find_keyword_context, scanLines_eq_none_iff]
    exact h
  · intro j line idx hget hf hmin
    rw [find_keyword_context]
    have hrun := scanLines_first keyword (pySplitlines text) 0 j line idx hget hf hmin
    simpa using hrun

set_option maxRecDepth 10000 in
/-- Witness for C7 at the spec example: keyword occurrences on lines 2 and 5;
the line-2 match alone is returned. -/
theorem C7_first_match_only_witness :
    find_keyword_context ("aa\nbb\nkeyword x\ncc\ndd\nkeyword y".data)
        ("keyword".data)
      = some ("2: keyword x".data) := by
  have hmin : ∀ k line2, k < 2 →
      (pySplitlines ("aa\nbb\nkeyword x\ncc\ndd\nkeyword y".data))[k]? = some line2 →
      findSub ("keyword".data) (pyStrip (pyLower line2)) = none := by
    intro k line2 hk hget
    interval_cases k
    · rw [(by decide :
        (pySplitlines ("aa\nbb\nkeyword x\ncc\ndd\nkeyword y".data))[0]?
          = some ("aa".data))] at hget
      injection hget with h2
      subst h2
      decide
    · rw [(by decide :
        (pySplitlines ("aa\nbb\nkeyword x\ncc\ndd\nkeyword y".data))[1]?
          = some ("bb".data))] at hget
      injection hget with h2
      subst h2
      decide
  have h := (C7_first_match_only ("aa\nbb\nkeyword x\ncc\ndd\nkeyword y".data)
    ("keyword".data)).2 2 ("keyword x".data) 0 (by decide) (by decide) hmin
  rw [h]
  decide

set_option maxRecDepth 10000 in
/-- Counterexample to claim C8 as stated: the code replaces only the dot; the
non-alphanumeric hyphen in keyword "a-b" survives into the file name, whereas
the claim requires every non-alphanumeric character to be replaced. -/
theorem C8_counterexample :
    csvFilename ("a-b".data) ⟨2026, 10, 12, 9, 5, 0, 0⟩
      ≠ "sites_with_".data
          ++ ("a-b".data).map (fun c => if c.isAlphanum then c else '_')
          ++ '_' :: strftimeMinute ⟨2026, 10, 12, 9, 5, 0, 0⟩ ++ ".csv".data ∧
    '-' ∈ csvFilename ("a-b".data) ⟨2026, 10, 12, 9, 5, 0, 0⟩ ∧
    ('-').isAlphanum = false := by
  have hk : keyword_as_filename ("a-b".data) = "a-b".data := by
    rw [keyword_as_filename, pyReplace_single]
    decide
  refine ⟨?_, ?_, by decide⟩
  · simp only [csvFilename, hk]
    decide
  · simp only [csvFilename, hk]
    decide

/-- Claim C8, amended: the name of the CSV file embeds the keyword with only
the dot character replaced by an underscore (every other character, including
other non-alphanumeric ones, is kept verbatim) together with a timestamp of
minute granularity: the name reads the run time only down to the minute, so
two run times differing below the minute give the same name. -/
theorem C8_filename (keyword : List Char) (t1 t2 : PyDateTime)
    (hy : t1.year = t2.year) (hmo : t1.month = t2.month) (hd : t1.day = t2.day)
    (hh : t1.hour = t2.hour) (hmi : t1.minute = t2.minute) :
    csvFilename keyword t1
      = "sites_with_".data
          ++ keyword.map (fun c => if c = '.' then '_' else c)
          ++ '_' :: strftimeMinute t1 ++ ".csv".data ∧
    csvFilename keyword t1 = csvFilename keyword t2 := by
  constructor
  · simp only [csvFilename, keyword_as_filename, pyReplace_single]
  · simp only [csvFilename, strftimeMinute, hy, hmo, hd, hh, hmi]

/-- Witness for C8 at the repository keyword "polyfill.io" and two run times
in the same minute differing in seconds and microseconds. -/
theorem C8_filename_witness :
    csvFilename ("polyfill.io".data) ⟨2026, 10, 12, 9, 5, 0, 0⟩
      = "sites_with_".data
          ++ ("polyfill.io".data).map (fun c => if c = '.' then '_' else c)
          ++ '_' :: strftimeMinute ⟨2026, 10, 12, 9, 5, 0, 0⟩ ++ ".csv".data ∧
    csvFilename ("polyfill.io".data) ⟨2026, 10, 12, 9, 5, 0, 0⟩
      = csvFilename ("polyfill.io".data) ⟨2026, 10, 12, 9, 5, 59, 999999⟩ :=
  C8_filename ("polyfill.io".data) ⟨2026, 10, 12, 9, 5, 0, 0⟩
    ⟨2026, 10, 12, 9, 5, 59, 999999⟩ rfl rfl rfl rfl rfl

/-- Claim C9: the keyword search and the returned context are computed on a
lowercased, whitespace-stripped copy of each line: on any match the returned
excerpt is a window of the normalised line `pyStrip (pyLower line)` — so it
contains no uppercase character and lies inside the stripped line, which has
no further leading or trailing whitespace to remove — and the match offset
anchoring the window is a position of the keyword in the normalised line, not
in the original one. -/
theorem C9_normalised_context (text keyword s : List Char)
    (h : find_keyword_context text keyword = some s) :
    ∃ i line idx, (pySplitlines text)[i]? = some line ∧
      findSub keyword (pyStrip (pyLower line)) = some idx ∧
      (∃ post, (pyStrip (pyLower line)).drop idx = keyword ++ post) ∧
      s = Nat.toDigits 10 i ++ ':' :: ' ' ::
        lineContext (pyStrip (pyLower line)) idx ∧
      (∀ c ∈ lineContext (pyStrip (pyLower line)) idx, c.isUpper = false) ∧
      pyStrip (pyStrip (pyLower line)) = pyStrip (pyLower line) := by
  rw [find_keyword_context] at h
  obtain ⟨j, line, idx, hget, -, hf, hs⟩ := scanLines_eq_some_spec keyword _ 0 s h
  refine ⟨j, line, idx, hget, hf, findSub_some_drop keyword _ idx hf, ?_,
    no_upper_in_context line idx, pyStrip_idem (pyLower line)⟩
  rw [hs]
  simp

set_option maxRecDepth 10000 in
/-- Witness for C9 at a line with uppercase letters and surrounding
whitespace: the returned excerpt is the lowercased, stripped form. -/
theorem C9_normalised_context_witness :
    ∃ i line idx,
      (pySplitlines ("  HELLO polyfill.io World\nsecond".data))[i]? = some line ∧
      findSub ("polyfill.io".data) (pyStrip (pyLower line)) = some idx ∧
      (∃ post, (pyStrip (pyLower line)).drop idx = "polyfill.io".data ++ post) ∧
      "0: hello polyfill.io world".data = Nat.toDigits 10 i ++ ':' :: ' ' ::
        lineContext (pyStrip (pyLower line)) idx ∧
      (∀ c ∈ lineContext (pyStrip (pyLower line)) idx, c.isUpper = false) ∧
      pyStrip (pyStrip (pyLower line)) = pyStrip (pyLower line) :=
  C9_normalised_context ("  HELLO polyfill.io World\nsecond".data)
    ("polyfill.io".data) ("0: hello polyfill.io world".data) (by decide)

/-- Claim C10: with the empty keyword, every text that has at least one line
matches immediately: the match is at offset 0 of line 0 and the context is the
first at-most-50 characters of the normalised first line; the empty text
splits into zero lines and is the only text giving the no-match result. -/
theorem C10_empty_keyword (text : List Char) :
    (text = [] → find_keyword_context text [] = none) ∧
    (text ≠ [] → ∃ line rest, pySplitlines text = line :: rest ∧
      find_keyword_context text []
        = some ('0' :: ':' :: ' ' :: (pyStrip (pyLower line)).take 50)) := by
  constructor
  · intro h
    subst h
    rfl
  · intro h
    rcases hsp : pySplitlines text with - | ⟨line, rest⟩
    · exact absurd hsp (pySplitlines_ne_nil text h)
    · refine ⟨line, rest, rfl, ?_⟩
      rw [find_keyword_context, hsp]
      have hstep : scanLines [] 0 (line :: rest)
          = some (Nat.toDigits 10 0 ++ ':' :: ' ' ::
              lineContext (pyStrip (pyLower line)) 0) := by
        rw [scanLines_cons, findSub_nil_needle]
      rw [hstep]
      have h0 : Nat.toDigits 10 0 = ['0'] := by decide
      have h50 : lineContext (pyStrip (pyLower line)) 0
          = (pyStrip (pyLower line)).take 50 := by
        simp [lineContext]
      rw [h0, h50]
      rfl

set_option maxRecDepth 10000 in
/-- Witness for C10: the empty text gives no match with the empty keyword,
while a two-line text matches at line 0 with the first at-most-50 characters
of its normalised first line as context. -/
theorem C10_empty_keyword_witness :
    find_keyword_context [] [] = none ∧
    (∃ line rest, pySplitlines ("  Hi There\nWorld".data) = line :: rest ∧
      find_keyword_context ("  Hi There\nWorld".data) []
        = some ('0' :: ':' :: ' ' :: (pyStrip (pyLower line)).take 50)) :=
  ⟨(C10_empty_keyword []).1 rfl,
   (C10_empty_keyword ("  Hi There\nWorld".data)).2 (by decide)⟩

end PolyfillScanner
